import Mathlib

/-!
Shallow embedding of the logbase log-entry storage and retrieval engine:
the action-code registry (src/api/action.rs), the field projection and
log-entry store (src/db/model_log.rs), and the API handlers
(src/api/log.rs).  The external wide-column row store is modelled as a
list of rows kept in clustering order (descending entry id within an
owner), per the row-store contract in the spec; machine integers (i8,
i32, u32) are modelled as Int/Nat with explicit truncation where the
source casts.
-/

namespace Logbase

/-- An xid identifier: 12 bytes, compared lexicographically.  Since all
identifiers have the same length, lexicographic byte order coincides with
numeric order of the big-endian value, so we model an id as that numeric
value (a natural number below 2^96). -/
abbrev Xid := Nat

/-- Modelled from the spec: the `MAX_ID` constant of the db module (not
under src/) is the maximum possible identifier value, i.e. the id whose
12 bytes are all 0xff. -/
def MAX_ID : Xid := 2 ^ 96 - 1

/-- HTTPError from the web framework: a status code and a message. -/
structure HTTPError where
  code : Nat
  message : String
deriving DecidableEq, Repr

/-- A CQL parameter value, as serialized by the driver.  The constructor
records the wire type: binding a value of one type into a column position
of another type is a driver-level type error, never an equality match. -/
inductive CqlValue where
  | xid (v : Xid)
  | tinyint (v : Int)
  | int (v : Int)
  | text (s : String)
  | blob (b : List Nat)
deriving DecidableEq, Repr

/-- The fixed action table of src/api/action.rs (72 slots, reserved
slots hold the sentinel name). -/
def ACTIONS : List String :=
  [ "sys.create.user"
  , "sys.update.user"
  , "sys.update.group"
  , "sys.update.creation"
  , "reserved"
  , "reserved"
  , "reserved"
  , "reserved"
  , "user.login"
  , "user.authz"
  , "user.update"
  , "user.update.cn"
  , "user.logout"
  , "user.collect"
  , "user.follow"
  , "user.subscribe"
  , "user.sponsor"
  , "reserved"
  , "reserved"
  , "reserved"
  , "reserved"
  , "reserved"
  , "reserved"
  , "reserved"
  , "group.create"
  , "group.update"
  , "group.update.cn"
  , "group.transfer"
  , "group.delete"
  , "group.create.user"
  , "group.update.user"
  , "group.add.member"
  , "group.update.member"
  , "group.remove.member"
  , "reserved"
  , "reserved"
  , "reserved"
  , "reserved"
  , "reserved"
  , "reserved"
  , "creation.create"
  , "creation.create.converting"
  , "creation.create.scraping"
  , "creation.update"
  , "creation.update.content"
  , "creation.release"
  , "creation.delete"
  , "creation.assist"
  , "creation.transfer"
  , "reserved"
  , "reserved"
  , "reserved"
  , "reserved"
  , "reserved"
  , "reserved"
  , "reserved"
  , "publication.create"
  , "publication.update"
  , "publication.update.content"
  , "publication.publish"
  , "publication.delete"
  , "publication.assist"
  , "reserved"
  , "reserved"
  , "reserved"
  , "reserved"
  , "reserved"
  , "reserved"
  , "reserved"
  , "reserved"
  , "reserved"
  , "reserved" ]

/-- `from_action` of src/api/action.rs: code to name, total over all
integers (an i8 in the source); out of range maps to the sentinel.  The
`getD` default is unreachable, since the else branch only runs for codes
inside the table bounds. -/
def from_action (a : Int) : String :=
  if a < 0 ∨ (ACTIONS.length : Int) ≤ a then "reserved"
  else ACTIONS.getD a.toNat "reserved"

/-- `to_action` of src/api/action.rs: name to code, first matching slot,
never returning a code for the sentinel name. -/
def to_action (a : String) : Option Int :=
  if a = "reserved" then none
  else (ACTIONS.findIdx? (fun x => x = a)).map Int.ofNat

/-- The Log row/document of src/db/model_log.rs.  `selectedFields`
models the source's transient `_fields` member (selected fields, ignored
by the ORM); all other members are the persisted columns, with i8/i32
modelled as Int and a blob as a byte list. -/
structure Log where
  uid : Xid := 0
  id : Xid := 0
  action : Int := 0
  status : Int := 0
  gid : Xid := 0
  ip : String := ""
  payload : List Nat := []
  tokens : Int := 0
  error : String := ""
  selectedFields : List String := []
deriving DecidableEq, Repr

/-- `Log::with_pk`. -/
def Log.with_pk (uid id : Xid) : Log := { uid := uid, id := id }

/-- `Log::fields()`: the full column-name list generated by the CqlOrm
derive from the struct definition, in declaration order, skipping the
underscore-prefixed transient member. -/
def Log.fields : List String :=
  ["uid", "id", "action", "status", "gid", "ip", "payload", "tokens", "error"]

/-- The invalid-field error of src/db/model_log.rs. -/
def invalidFieldErr (f : String) : HTTPError :=
  { code := 400, message := "Invalid field: " ++ f }

/-- `Log::select_fields`: resolves a requested projection, validating
names against the full field set and forcing the mandatory fields (and
the primary key when `with_pk`), by sequential pushes exactly as in the
source. -/
def Log.select_fields (select_fields : List String) (with_pk : Bool) :
    Except HTTPError (List String) :=
  if select_fields.isEmpty then .ok Log.fields
  else match select_fields.find? (fun f => ¬ Log.fields.contains f) with
    | some f => .error (invalidFieldErr f)
    | none =>
      let sf := select_fields
      let sf := if sf.contains "action" then sf else sf ++ ["action"]
      let sf := if sf.contains "status" then sf else sf ++ ["status"]
      let sf :=
        if with_pk then
          let sf := if sf.contains "uid" then sf else sf ++ ["uid"]
          if sf.contains "id" then sf else sf ++ ["id"]
        else sf
      .ok sf

/-- The row store's table: rows in clustering order.  Per the row-store
contract in the spec, iteration queries return rows in clustering order;
the listing claims take the descending-id order within an owner as a
hypothesis on the table. -/
abbrev Store := List Log

/-- Point lookup of the row with the given primary key (the row store's
`SELECT ... WHERE uid=? AND id=? LIMIT 1`). -/
def findRow (st : Store) (uid id : Xid) : Option Log :=
  st.find? (fun r => r.uid == uid && r.id == id)

/-- The not-found error surfaced by `single_row()` when no row matches. -/
def notFoundErr : HTTPError := { code := 404, message := "not found" }

/-- The frozen error of `Log::upsert_fields`. -/
def frozenErr : HTTPError := { code := 400, message := "log is frozen" }

/-- CqlOrm-generated `fill`: copy each column named in `fields` from the
fetched row into the document, leaving unnamed columns as they were. -/
def Log.fillFrom (self row : Log) (fields : List String) : Log :=
  { uid := if fields.contains "uid" then row.uid else self.uid
  , id := if fields.contains "id" then row.id else self.id
  , action := if fields.contains "action" then row.action else self.action
  , status := if fields.contains "status" then row.status else self.status
  , gid := if fields.contains "gid" then row.gid else self.gid
  , ip := if fields.contains "ip" then row.ip else self.ip
  , payload := if fields.contains "payload" then row.payload else self.payload
  , tokens := if fields.contains "tokens" then row.tokens else self.tokens
  , error := if fields.contains "error" then row.error else self.error
  , selectedFields := self.selectedFields }

/-- `Log::get_one`: resolve the projection (without forcing the primary
key), record it in the transient member, read exactly those columns.
Returns the mutated document together with the result; on a failed read
the document keeps the recorded projection but no column is filled,
mirroring the source's mutation order. -/
def Log.get_one (self : Log) (st : Store) (sf : List String) :
    Log × Except HTTPError Unit :=
  match Log.select_fields sf false with
  | .error e => (self, .error e)
  | .ok fields =>
    match findRow st self.uid self.id with
    | none => ({ self with selectedFields := fields }, .error notFoundErr)
    | some row => (Log.fillFrom { self with selectedFields := fields } row fields, .ok ())

/-- The mutable-column allowlist of `Log::upsert_fields`. -/
def upsertValidFields : List String :=
  ["status", "gid", "action", "ip", "payload", "tokens", "error"]

/-- Applying one bound `SET k=?` column to a row, typed per the table
schema; a value of the wrong wire type for the column leaves the row as
is (unreachable from the handlers, which bind matching types). -/
def Log.applyCol (row : Log) (kv : String × CqlValue) : Log :=
  match kv with
  | ("status", .tinyint v) => { row with status := v }
  | ("gid", .xid v) => { row with gid := v }
  | ("action", .tinyint v) => { row with action := v }
  | ("ip", .text v) => { row with ip := v }
  | ("payload", .blob v) => { row with payload := v }
  | ("tokens", .int v) => { row with tokens := v }
  | ("error", .text v) => { row with error := v }
  | _ => row

/-- The row store executing `UPDATE log SET ... WHERE uid=? AND id=?`:
CQL update-as-upsert — the named columns are written onto the existing
row, or onto a fresh row of column defaults when no row has the key. -/
def writeRow (st : Store) (uid id : Xid) (cols : List (String × CqlValue)) : Store :=
  match findRow st uid id with
  | some _ =>
    st.map (fun r => if r.uid == uid && r.id == id then cols.foldl Log.applyCol r else r)
  | none => cols.foldl Log.applyCol (Log.with_pk uid id) :: st

/-- Whether an Except carries a success, as the source's `res.is_ok()`. -/
def exceptIsOk {ε α : Type} : Except ε α → Bool
  | .ok _ => true
  | .error _ => false

/-- `Log::upsert_fields`: guard read of `status` only, then frozen check,
then allowlist validation of the supplied columns, then a single partial
update.  Returns the mutated document, the table after the call (unchanged
on every error path — the source returns before issuing the update), and
the result. -/
def Log.upsert_fields (self : Log) (st : Store) (cols : List (String × CqlValue)) :
    Log × Store × Except HTTPError Unit :=
  if exceptIsOk (self.get_one st ["status"]).2
      && decide ((self.get_one st ["status"]).1.status ≠ 0) then
    ((self.get_one st ["status"]).1, st, .error frozenErr)
  else
    match cols.find? (fun kv => ¬ upsertValidFields.contains kv.1) with
    | some kv => ((self.get_one st ["status"]).1, st, .error (invalidFieldErr kv.1))
    | none => ((self.get_one st ["status"]).1,
        writeRow st (self.get_one st ["status"]).1.uid (self.get_one st ["status"]).1.id cols,
        .ok ())

/-- The create-request body of src/api/log.rs. -/
structure CreateLogInput where
  uid : Xid
  gid : Xid
  action : String
  status : Int
  ip : String
  payload : List Nat
  tokens : Int
deriving DecidableEq, Repr

/-- The validator-derived `validate` of CreateLogInput: status in
[-1, 1], tokens non-negative. -/
def CreateLogInput.validate (i : CreateLogInput) : Bool :=
  decide (-1 ≤ i.status) && decide (i.status ≤ 1) && decide (0 ≤ i.tokens)

/-- The invalid-action error of the handlers. -/
def invalidActionErr (a : String) : HTTPError :=
  { code := 400, message := "invalid action " ++ a }

/-- The `create` handler of src/api/log.rs: validate, resolve the action
name (failing with invalid action), build the document with a fresh
time-ordered id (the xid generator is external, so the fresh id is a
parameter), and upsert the supplied columns.  Returns the table after the
call and the returned document. -/
def create (st : Store) (input : CreateLogInput) (newId : Xid) :
    Store × Except HTTPError Log :=
  if ¬ input.validate then (st, .error { code := 400, message := "invalid input" })
  else
    match to_action input.action with
    | none => (st, .error (invalidActionErr input.action))
    | some i =>
      match Log.upsert_fields { Log.with_pk input.uid newId with action := i } st
          [ ("action", .tinyint i), ("gid", .xid input.gid), ("ip", .text input.ip)
          , ("payload", .blob input.payload), ("tokens", .int input.tokens) ] with
      | (_, st', .error e) => (st', .error e)
      | (doc, st', .ok _) => (st', .ok doc)

/-- Building one listed row in `Log::list` / `Log::list_recently`: a
default document filled with the selected columns of the fetched row,
with the projection recorded in the transient member. -/
def listRowFill (fields : List String) (row : Log) : Log :=
  { Log.fillFrom {} row fields with selectedFields := fields }

/-- The bound action-filter query of `Log::list`: one bound value per
placeholder, in placeholder order (uid=?, action=?, id<?, LIMIT ?). -/
structure BoundListQuery where
  uidEq : CqlValue
  actionEq : CqlValue
  idLt : CqlValue
  limit : Nat
deriving DecidableEq, Repr

/-- The bound query the source's action branch issues: the placeholders
read (uid=?, action=?, id<?, LIMIT ?) but the parameter tuple is built in
the order (uid, token, action, page_size) (src/db/model_log.rs lines
150-155), so positional binding puts the cursor at the action-equality
position and the action code at the identifier upper bound. -/
def listActionBound (uid token : Xid) (a : Int) (n : Nat) : BoundListQuery :=
  { uidEq := .xid uid, actionEq := .xid token, idLt := .tinyint a, limit := n }

/-- Typed equality of a bound value against a uid column. -/
def cqlMatchXidEq : CqlValue → Xid → Bool
  | .xid v, w => v == w
  | _, _ => false

/-- Typed equality of a bound value against a tinyint (action) column;
a bound value of a different wire type never matches. -/
def cqlMatchTinyintEq : CqlValue → Int → Bool
  | .tinyint v, w => v == w
  | _, _ => false

/-- Typed strict upper bound of an id column by a bound value. -/
def cqlMatchXidLt : CqlValue → Xid → Bool
  | .xid v, w => w < v
  | _, _ => false

/-- The row store executing a bound action-filter listing query. -/
def execListQuery (st : Store) (q : BoundListQuery) : List Log :=
  (st.filter (fun r =>
    cqlMatchXidEq q.uidEq r.uid && cqlMatchTinyintEq q.actionEq r.action
      && cqlMatchXidLt q.idLt r.id)).take q.limit

/-- `Log::list`: backward cursor listing.  The cursor defaults to MAX_ID
when absent.  Without an action filter the placeholders (uid=?, id<?,
LIMIT ?) receive the parameters (uid, token, page_size) in matching
order; with an action filter the bound query is `listActionBound`. -/
def Log.list (st : Store) (uid : Xid) (sf : List String) (page_size : Nat)
    (page_token : Option Xid) (action : Option Int) :
    Except HTTPError (List Log) :=
  match Log.select_fields sf true with
  | .error e => .error e
  | .ok fields =>
    match action with
    | none =>
      .ok (((st.filter (fun r =>
          r.uid == uid && decide (r.id < page_token.getD MAX_ID))).take page_size).map
            (listRowFill fields))
    | some a =>
      .ok ((execListQuery st
        (listActionBound uid (page_token.getD MAX_ID) a page_size)).map (listRowFill fields))

/-- Big-endian bytes of a u32, as `to_be_bytes` produces them. -/
def u32_be_bytes (v : Nat) : List Nat :=
  [v / 2 ^ 24 % 256, v / 2 ^ 16 % 256, v / 2 ^ 8 % 256, v % 256]

/-- Numeric value of a big-endian byte string (how a 12-byte xid orders
lexicographically). -/
def xidOfBytes (bs : List Nat) : Nat :=
  bs.foldl (fun acc b => acc * 256 + b) 0

/-- The synthetic lower-bound id of `Log::list_recently`: a default
(all-zero) id whose first four bytes are overwritten with the big-endian
unix-seconds timestamp of now minus 3 days (the `as u32` cast truncates
to 32 bits). -/
def retentionBoundId (now_ms : Nat) : Xid :=
  xidOfBytes (u32_be_bytes ((now_ms / 1000 - 3600 * 24 * 3) % 2 ^ 32) ++ List.replicate 8 0)

/-- `Log::list_recently`: bounded recent-window listing.  Both branches
bind parameters in placeholder order (uid, bound id, [actions,] limit);
the cap is the literal 1000 of the source. -/
def Log.list_recently (st : Store) (uid : Xid) (sf : List String)
    (actions : List Int) (now_ms : Nat) : Except HTTPError (List Log) :=
  match Log.select_fields sf true with
  | .error e => .error e
  | .ok fields =>
    if actions.isEmpty then
      .ok (((st.filter (fun r =>
        r.uid == uid && decide (retentionBoundId now_ms < r.id))).take 1000).map
          (listRowFill fields))
    else
      .ok (((st.filter (fun r =>
        r.uid == uid && decide (retentionBoundId now_ms < r.id)
          && actions.contains r.action)).take 1000).map (listRowFill fields))

/-- The caller-facing output model of src/api/log.rs: mandatory fields
are plain, optional fields are absent unless populated. -/
structure LogOutput where
  uid : Xid
  id : Xid
  action : String
  status : Int
  gid : Option Xid := none
  ip : Option String := none
  payload : Option (List Nat) := none
  tokens : Option Nat := none
  error : Option String := none
deriving DecidableEq, Repr

/-- One step of the `LogOutput::from` loop over the selected fields. -/
def LogOutput.fromStep (val : Log) (rt : LogOutput) (v : String) : LogOutput :=
  match v with
  | "gid" => { rt with gid := some val.gid }
  | "ip" => { rt with ip := some val.ip }
  | "payload" => { rt with payload := some val.payload }
  | "tokens" => { rt with tokens := some (val.tokens % 2 ^ 32).toNat }
  | "error" =>
    { rt with error := if val.error = "" then none else some val.error }
  | _ => rt

/-- `LogOutput::from`: always render uid, id, the action name and
status; render each optional field only when its name is among the
selected fields, with `error` additionally absent when empty (the
`tokens` value goes through the source's `as u32` cast). -/
def LogOutput.fromLog (val : Log) : LogOutput :=
  val.selectedFields.foldl (LogOutput.fromStep val)
    { uid := val.uid, id := val.id, action := from_action val.action, status := val.status }

/-! ## Theorems -/

/-- Spec-side description of the projection result for a valid non-empty
request: the requested names followed by the missing mandatory fields,
then the missing primary-key fields when the primary key is forced. -/
def appendMissing (F : List String) (with_pk : Bool) : List String :=
  (F ++ (if F.contains "action" then [] else ["action"])
     ++ (if F.contains "status" then [] else ["status"]))
    ++ (if with_pk then
          (if F.contains "uid" then [] else ["uid"])
            ++ (if F.contains "id" then [] else ["id"])
        else [])

theorem select_fields_ok_of_valid (F : List String) (wpk : Bool) (hne : F ≠ [])
    (hval : ∀ f ∈ F, f ∈ Log.fields) :
    Log.select_fields F wpk = .ok (appendMissing F wpk) := by
  have h1 : F.isEmpty = false := by simpa using hne
  have h2 : F.find? (fun f => ¬ Log.fields.contains f) = none := by
    rw [List.find?_eq_none]
    intro x hx
    simp [List.contains, List.elem_eq_mem, hval x hx]
  simp only [Log.select_fields, h1, h2, Bool.false_eq_true, if_false]
  by_cases c1 : F.contains "action" <;> by_cases c2 : F.contains "status" <;>
    by_cases c3 : F.contains "uid" <;> by_cases c4 : F.contains "id" <;>
    cases wpk <;>
    simp_all [appendMissing, List.contains, List.elem_eq_mem, List.mem_append]

theorem mem_appendMissing_true (F : List String) :
    "action" ∈ appendMissing F true ∧ "status" ∈ appendMissing F true ∧
      "uid" ∈ appendMissing F true ∧ "id" ∈ appendMissing F true := by
  unfold appendMissing
  by_cases c1 : F.contains "action" <;> by_cases c2 : F.contains "status" <;>
    by_cases c3 : F.contains "uid" <;> by_cases c4 : F.contains "id" <;>
    simp_all [List.contains, List.elem_eq_mem, List.mem_append]

/-- C3: an empty request resolves to the full field set; a request with a
name outside the full field set fails with the invalid-field error naming
an offending field; a valid non-empty request resolves to the request
with "action" and "status" appended when missing, plus "uid" and "id"
when missing if the primary key is forced; and every successful
resolution with the primary key forced contains "action", "status",
"uid" and "id". -/
theorem select_fields_projection_spec (F : List String) (with_pk : Bool) :
    (F = [] → Log.select_fields F with_pk = .ok Log.fields)
    ∧ ((∃ f, f ∈ F ∧ f ∉ Log.fields) →
        ∃ f, f ∈ F ∧ f ∉ Log.fields
          ∧ Log.select_fields F with_pk = .error (invalidFieldErr f))
    ∧ (F ≠ [] → (∀ f ∈ F, f ∈ Log.fields) →
        Log.select_fields F with_pk = .ok (appendMissing F with_pk))
    ∧ (∀ l, Log.select_fields F true = .ok l →
        "action" ∈ l ∧ "status" ∈ l ∧ "uid" ∈ l ∧ "id" ∈ l) := by
  refine ⟨?_, ?_, ?_, ?_⟩
  · rintro rfl
    rfl
  · rintro ⟨f, hf, hnf⟩
    have hne : F.isEmpty = false := by
      rcases F with _ | _ <;> simp_all
    have hsome : (F.find? (fun f => ¬ Log.fields.contains f)).isSome := by
      rw [List.find?_isSome]
      exact ⟨f, hf, by simp [List.contains, List.elem_eq_mem, hnf]⟩
    rcases hx : F.find? (fun f => ¬ Log.fields.contains f) with _ | g
    · rw [hx] at hsome
      simp at hsome
    · refine ⟨g, List.mem_of_find?_eq_some hx, ?_, ?_⟩
      · have := List.find?_some hx
        simpa [List.contains, List.elem_eq_mem] using this
      · simp only [Log.select_fields, hne, Bool.false_eq_true, if_false, hx]
  · exact fun hne hval => select_fields_ok_of_valid F with_pk hne hval
  · intro l hl
    by_cases hne : F = []
    · subst hne
      cases hl
      decide
    · by_cases hval : ∀ f ∈ F, f ∈ Log.fields
      · rw [select_fields_ok_of_valid F true hne hval] at hl
        cases hl
        exact mem_appendMissing_true F
      · push_neg at hval
        rcases hval with ⟨f, hf, hnf⟩
        have hne' : F.isEmpty = false := by simpa using hne
        have hsome : (F.find? (fun f => ¬ Log.fields.contains f)).isSome := by
          rw [List.find?_isSome]
          exact ⟨f, hf, by simp [List.contains, List.elem_eq_mem, hnf]⟩
        rcases hx : F.find? (fun f => ¬ Log.fields.contains f) with _ | g
        · rw [hx] at hsome
          simp at hsome
        · simp only [Log.select_fields, hne', Bool.false_eq_true, if_false, hx] at hl
          cases hl

/-- Witness for C3 at concrete inputs: F = ["error"], primary key
forced. -/
theorem select_fields_projection_spec_witness :
    (["error"] : List String) ≠ []
      ∧ Log.select_fields ["error"] true
          = .ok ["error", "action", "status", "uid", "id"] := by
  refine ⟨by decide, ?_⟩
  have h := (select_fields_projection_spec ["error"] true).2.2.1
    (by decide) (by decide)
  rw [h]
  rfl

/-- C8: every integer code outside the table bounds (including every
negative code) maps to the sentinel name, and the name-to-code lookup
never returns a code for the sentinel name. -/
theorem from_action_out_of_range_reserved (c : Int) (h : c < 0 ∨ 72 ≤ c) :
    from_action c = "reserved" ∧ to_action "reserved" = none := by
  constructor
  · have hlen : (ACTIONS.length : Int) = 72 := by rfl
    unfold from_action
    rw [if_pos]
    rw [hlen]
    exact h
  · rfl

/-- Witness for C8 at the concrete out-of-range codes -1 and 100. -/
theorem from_action_out_of_range_reserved_witness :
    (from_action (-1) = "reserved" ∧ to_action "reserved" = none)
      ∧ (from_action 100 = "reserved" ∧ to_action "reserved" = none) :=
  ⟨from_action_out_of_range_reserved (-1) (by decide),
   from_action_out_of_range_reserved 100 (by decide)⟩

set_option maxRecDepth 40000 in
/-- C9: the registry is bidirectional on assigned codes — every in-range
code whose slot is not the sentinel round-trips through the name lookup,
and every successful name lookup round-trips through the code lookup and
never carries the sentinel name. -/
theorem action_registry_bidirectional :
    (∀ c : Nat, c < 72 → ACTIONS.getD c "" ≠ "reserved" →
        to_action (from_action (c : Int)) = some (c : Int))
    ∧ (∀ n : String, ∀ c : Int, to_action n = some c →
        from_action c = n ∧ n ≠ "reserved") := by
  constructor
  · decide
  · intro n c h
    unfold to_action at h
    by_cases hr : n = "reserved"
    · simp [hr] at h
    · rw [if_neg hr] at h
      rcases Option.map_eq_some'.mp h with ⟨k, hk, hkc⟩
      rcases List.findIdx?_eq_some_iff_getElem.mp hk with ⟨hklen, hpk, _⟩
      have hlen : ACTIONS.length = 72 := by rfl
      have hk72 : k < 72 := by
        rw [hlen] at hklen
        exact hklen
      have hget : ACTIONS[k] = n := by simpa using hpk
      subst hkc
      refine ⟨?_, hr⟩
      unfold from_action
      rw [if_neg]
      · have htn : (Int.ofNat k).toNat = k := rfl
        rw [htn, List.getD_eq_getElem?_getD, List.getElem?_eq_getElem hklen]
        simpa using hget
      · have h72 : (ACTIONS.length : Int) = 72 := rfl
        rw [h72, Int.ofNat_eq_natCast]
        push_neg
        omega

/-- Witness for C9 at the concrete code 8 and the concrete name
"user.login". -/
theorem action_registry_bidirectional_witness :
    ((8 : Nat) < 72 ∧ ACTIONS.getD 8 "" ≠ "reserved"
        ∧ to_action (from_action ((8 : Nat) : Int)) = some ((8 : Nat) : Int))
      ∧ (to_action "user.login" = some 8
          ∧ from_action 8 = "user.login" ∧ "user.login" ≠ "reserved") := by
  refine ⟨⟨by decide, by decide, action_registry_bidirectional.1 8 (by decide) (by decide)⟩,
    ⟨by decide, action_registry_bidirectional.2 "user.login" 8 (by decide)⟩⟩

theorem get_one_found (st : Store) (uid id : Xid) (row : Log)
    (hfind : findRow st uid id = some row) :
    (Log.with_pk uid id).get_one st ["status"]
      = (Log.fillFrom { Log.with_pk uid id with selectedFields := ["status", "action"] }
          row ["status", "action"], .ok ()) := by
  have hsf : Log.select_fields ["status"] false = .ok ["status", "action"] := rfl
  unfold Log.get_one
  rw [hsf]
  simp only [Log.with_pk]
  rw [hfind]

theorem get_one_status_projection (doc : Log) (st : Store) :
    (Log.get_one doc st ["status"]).1.selectedFields = ["status", "action"] := by
  have hsf : Log.select_fields ["status"] false = .ok ["status", "action"] := rfl
  unfold Log.get_one
  rw [hsf]
  cases hfr : findRow st doc.uid doc.id
  · rfl
  · rfl

/-- C2: a call to `upsert_fields` on an entry whose stored status is
non-pending fails with the frozen error for every column map, the table
is unchanged, and a subsequent `get_one` (for any field selection and
document) reads the same values as before the attempt. -/
theorem upsert_fields_frozen_rejects (st : Store) (uid id : Xid) (row : Log)
    (cols : List (String × CqlValue))
    (hfind : findRow st uid id = some row) (hfrozen : row.status ≠ 0) :
    ((Log.with_pk uid id).upsert_fields st cols).2.2 = .error frozenErr
    ∧ ((Log.with_pk uid id).upsert_fields st cols).2.1 = st
    ∧ (∀ sf doc, Log.get_one doc ((Log.with_pk uid id).upsert_fields st cols).2.1 sf
        = Log.get_one doc st sf) := by
  have hg := get_one_found st uid id row hfind
  have hstat : ((Log.with_pk uid id).get_one st ["status"]).1.status = row.status := by
    rw [hg]
    rfl
  have hcond : (exceptIsOk ((Log.with_pk uid id).get_one st ["status"]).2
      && decide (((Log.with_pk uid id).get_one st ["status"]).1.status ≠ 0)) = true := by
    rw [hstat]
    rw [hg]
    simp [exceptIsOk, hfrozen]
  unfold Log.upsert_fields
  rw [if_pos hcond]
  exact ⟨rfl, rfl, fun _ _ => rfl⟩

/-- Witness for C2: a one-row table whose entry is frozen (status 1);
an update of the error column is rejected and the table is unchanged. -/
theorem upsert_fields_frozen_rejects_witness :
    (findRow [{ uid := 1, id := 2, action := 8, status := 1 }] 1 2
        = some { uid := 1, id := 2, action := 8, status := 1 })
    ∧ (({ uid := 1, id := 2, action := 8, status := 1 } : Log).status ≠ 0)
    ∧ ((Log.with_pk 1 2).upsert_fields [{ uid := 1, id := 2, action := 8, status := 1 }]
          [("error", CqlValue.text "x")]).2.2 = .error frozenErr
    ∧ ((Log.with_pk 1 2).upsert_fields [{ uid := 1, id := 2, action := 8, status := 1 }]
          [("error", CqlValue.text "x")]).2.1
        = [{ uid := 1, id := 2, action := 8, status := 1 }] := by
  have h := upsert_fields_frozen_rejects [{ uid := 1, id := 2, action := 8, status := 1 }]
    1 2 { uid := 1, id := 2, action := 8, status := 1 } [("error", CqlValue.text "x")]
    (by decide) (by decide)
  exact ⟨by decide, by decide, h.1, h.2.1⟩

/-- C10: on a frozen entry, a column map containing a name outside the
mutable-field allowlist still fails with the frozen error (the guard
read precedes allowlist validation), and whenever `upsert_fields` fails
(in particular with an invalid-field error) the table is unchanged; the
returned document always records the guard read's status-only
projection. -/
theorem upsert_fields_guard_precedes_validation (st : Store) (uid id : Xid) (row : Log)
    (cols : List (String × CqlValue)) (k : String)
    (hfind : findRow st uid id = some row) (hfrozen : row.status ≠ 0)
    (hk : k ∈ cols.map Prod.fst) (hkbad : k ∉ upsertValidFields) :
    ((Log.with_pk uid id).upsert_fields st cols).2.2 = .error frozenErr
    ∧ (∀ doc st' cols' e, (Log.upsert_fields doc st' cols').2.2 = .error e →
        (Log.upsert_fields doc st' cols').2.1 = st')
    ∧ (∀ doc st' cols',
        ((Log.upsert_fields doc st' cols').1).selectedFields = ["status", "action"]) := by
  refine ⟨?_, ?_, ?_⟩
  · have hg := get_one_found st uid id row hfind
    have hstat : ((Log.with_pk uid id).get_one st ["status"]).1.status = row.status := by
      rw [hg]
      rfl
    have hcond : (exceptIsOk ((Log.with_pk uid id).get_one st ["status"]).2
        && decide (((Log.with_pk uid id).get_one st ["status"]).1.status ≠ 0)) = true := by
      rw [hstat]
      rw [hg]
      simp [exceptIsOk, hfrozen]
    unfold Log.upsert_fields
    rw [if_pos hcond]
  · intro doc st' cols' e he
    unfold Log.upsert_fields at he ⊢
    by_cases hc : (exceptIsOk (doc.get_one st' ["status"]).2
        && decide ((doc.get_one st' ["status"]).1.status ≠ 0)) = true
    · rw [if_pos hc]
    · rw [if_neg hc] at he ⊢
      rcases hx : cols'.find? (fun kv => ¬ upsertValidFields.contains kv.1) with _ | kv
      · rw [hx] at he
        simp at he
      · rw [hx]
  · intro doc st' cols'
    have hsel := get_one_status_projection doc st'
    unfold Log.upsert_fields
    by_cases hc : (exceptIsOk (doc.get_one st' ["status"]).2
        && decide ((doc.get_one st' ["status"]).1.status ≠ 0)) = true
    · rw [if_pos hc]
      exact hsel
    · rw [if_neg hc]
      rcases hx : cols'.find? (fun kv => ¬ upsertValidFields.contains kv.1) with _ | kv
      · rw [hx]
        exact hsel
      · rw [hx]
        exact hsel

/-- Witness for C10: on the frozen one-row table, a column map whose
single name "bogus" is outside the allowlist is rejected as frozen, not
as an invalid field. -/
theorem upsert_fields_guard_precedes_validation_witness :
    (("bogus" : String) ∈ ([("bogus", CqlValue.text "x")].map Prod.fst)
        ∧ "bogus" ∉ upsertValidFields)
    ∧ ((Log.with_pk 1 2).upsert_fields [{ uid := 1, id := 2, action := 8, status := 1 }]
          [("bogus", CqlValue.text "x")]).2.2 = .error frozenErr := by
  have h := upsert_fields_guard_precedes_validation
    [{ uid := 1, id := 2, action := 8, status := 1 }] 1 2
    { uid := 1, id := 2, action := 8, status := 1 } [("bogus", CqlValue.text "x")] "bogus"
    (by decide) (by decide) (by decide) (by decide)
  exact ⟨⟨by decide, by decide⟩, h.1⟩

theorem get_one_missing (st : Store) (doc : Log)
    (hfind : findRow st doc.uid doc.id = none) :
    doc.get_one st ["status"]
      = ({ doc with selectedFields := ["status", "action"] }, .error notFoundErr) := by
  have hsf : Log.select_fields ["status"] false = .ok ["status", "action"] := rfl
  unfold Log.get_one
  rw [hsf, hfind]

theorem upsert_fields_fresh (self : Log) (st : Store) (cols : List (String × CqlValue))
    (hfresh : findRow st self.uid self.id = none)
    (hcols : cols.find? (fun kv => ¬ upsertValidFields.contains kv.1) = none) :
    self.upsert_fields st cols
      = ({ self with selectedFields := ["status", "action"] },
         cols.foldl Log.applyCol (Log.with_pk self.uid self.id) :: st, .ok ()) := by
  have hg := get_one_missing st self hfresh
  unfold Log.upsert_fields writeRow
  simp only [hg, exceptIsOk, Bool.false_and, Bool.false_eq_true, if_false, hcols, hfresh]

theorem get_one_full (st : Store) (self : Log) (row : Log)
    (hfind : findRow st self.uid self.id = some row) :
    self.get_one st []
      = (Log.fillFrom { self with selectedFields := Log.fields } row Log.fields, .ok ()) := by
  have hsf : Log.select_fields [] false = .ok Log.fields := rfl
  unfold Log.get_one
  rw [hsf, hfind]

theorem get_one_cons_self (row : Log) (st : Store) (uid id : Xid)
    (hu : row.uid = uid) (hi : row.id = id) :
    (Log.with_pk uid id).get_one (row :: st) []
      = (Log.fillFrom { Log.with_pk uid id with selectedFields := Log.fields } row Log.fields,
         .ok ()) := by
  apply get_one_full
  unfold findRow
  apply List.find?_cons_of_pos
  simp [Log.with_pk, hu, hi]

/-- C6: a create request whose action name does not resolve fails with
the invalid-action error and leaves the table unchanged; otherwise (under
a fresh, previously unused entry id) it succeeds as a single
insert-or-update keyed by the owner and entry id, the returned entry has
status pending (0) and the requested action code, and a subsequent
`get_one` with no field filter reads back the same action code, owner id
and entry id with status pending. -/
theorem create_spec (st : Store) (input : CreateLogInput) (newId : Xid)
    (hvalid : input.validate = true)
    (hfresh : findRow st input.uid newId = none) :
    (to_action input.action = none →
        create st input newId = (st, .error (invalidActionErr input.action)))
    ∧ (∀ i, to_action input.action = some i →
        ∃ st' doc, create st input newId = (st', .ok doc)
          ∧ doc.status = 0 ∧ doc.uid = input.uid ∧ doc.id = newId ∧ doc.action = i
          ∧ ∃ fetched, (Log.with_pk input.uid newId).get_one st' [] = (fetched, .ok ())
            ∧ fetched.status = 0 ∧ fetched.uid = input.uid ∧ fetched.id = newId
            ∧ fetched.action = i) := by
  constructor
  · intro h
    unfold create
    rw [if_neg (by simp [hvalid]), h]
  · intro i h
    have hf0 : findRow st ({ Log.with_pk input.uid newId with action := i } : Log).uid
        ({ Log.with_pk input.uid newId with action := i } : Log).id = none := hfresh
    have hcols : ([ ("action", CqlValue.tinyint i), ("gid", CqlValue.xid input.gid)
        , ("ip", CqlValue.text input.ip), ("payload", CqlValue.blob input.payload)
        , ("tokens", CqlValue.int input.tokens) ] : List (String × CqlValue)).find?
          (fun kv => ¬ upsertValidFields.contains kv.1) = none := rfl
    have hup := upsert_fields_fresh { Log.with_pk input.uid newId with action := i } st
      [ ("action", CqlValue.tinyint i), ("gid", CqlValue.xid input.gid)
      , ("ip", CqlValue.text input.ip), ("payload", CqlValue.blob input.payload)
      , ("tokens", CqlValue.int input.tokens) ] hf0 hcols
    refine ⟨List.foldl Log.applyCol (Log.with_pk input.uid newId)
        [ ("action", CqlValue.tinyint i), ("gid", CqlValue.xid input.gid)
        , ("ip", CqlValue.text input.ip), ("payload", CqlValue.blob input.payload)
        , ("tokens", CqlValue.int input.tokens) ] :: st,
      { Log.with_pk input.uid newId with action := i, selectedFields := ["status", "action"] },
      ?_, rfl, rfl, rfl, rfl, ?_⟩
    · unfold create
      rw [if_neg (by simp [hvalid]), h]
      simp only [hup]
      rfl
    · exact ⟨_, get_one_cons_self _ st input.uid newId rfl rfl, rfl, rfl, rfl, rfl⟩

/-- Witness for C6 at a concrete request (action "user.login", owner 1,
fresh id 5) over the empty table, together with the invalid-action case
at action name "nope". -/
theorem create_spec_witness :
    (∃ st' doc,
        create [] ⟨1, 2, "user.login", 0, "1.2.3.4", [128], 1000⟩ 5 = (st', .ok doc)
          ∧ doc.status = 0 ∧ doc.uid = 1 ∧ doc.id = 5 ∧ doc.action = 8
          ∧ ∃ fetched, (Log.with_pk 1 5).get_one st' [] = (fetched, .ok ())
            ∧ fetched.status = 0 ∧ fetched.uid = 1 ∧ fetched.id = 5 ∧ fetched.action = 8)
    ∧ create [] ⟨1, 2, "nope", 0, "", [], 0⟩ 5
        = ([], .error (invalidActionErr "nope")) := by
  constructor
  · exact (create_spec [] ⟨1, 2, "user.login", 0, "1.2.3.4", [128], 1000⟩ 5
      (by decide) rfl).2 8 (by decide)
  · exact (create_spec [] ⟨1, 2, "nope", 0, "", [], 0⟩ 5 (by decide) rfl).1 (by decide)

theorem fromStep_mandatory (val : Log) (rt : LogOutput) (x : String) :
    (LogOutput.fromStep val rt x).uid = rt.uid
    ∧ (LogOutput.fromStep val rt x).id = rt.id
    ∧ (LogOutput.fromStep val rt x).action = rt.action
    ∧ (LogOutput.fromStep val rt x).status = rt.status := by
  unfold LogOutput.fromStep
  split <;> exact ⟨rfl, rfl, rfl, rfl⟩

theorem foldl_fromStep_mandatory (val : Log) (l : List String) (rt : LogOutput) :
    (l.foldl (LogOutput.fromStep val) rt).uid = rt.uid
    ∧ (l.foldl (LogOutput.fromStep val) rt).id = rt.id
    ∧ (l.foldl (LogOutput.fromStep val) rt).action = rt.action
    ∧ (l.foldl (LogOutput.fromStep val) rt).status = rt.status := by
  induction l generalizing rt with
  | nil => exact ⟨rfl, rfl, rfl, rfl⟩
  | cons x xs ih =>
    rcases ih (LogOutput.fromStep val rt x) with ⟨h1, h2, h3, h4⟩
    rcases fromStep_mandatory val rt x with ⟨g1, g2, g3, g4⟩
    rw [List.foldl_cons]
    exact ⟨h1.trans g1, h2.trans g2, h3.trans g3, h4.trans g4⟩

theorem fromStep_gid (val : Log) (rt : LogOutput) (x : String) (hx : x ≠ "gid") :
    (LogOutput.fromStep val rt x).gid = rt.gid := by
  unfold LogOutput.fromStep
  split <;> simp_all

theorem fromStep_ip (val : Log) (rt : LogOutput) (x : String) (hx : x ≠ "ip") :
    (LogOutput.fromStep val rt x).ip = rt.ip := by
  unfold LogOutput.fromStep
  split <;> simp_all

theorem fromStep_payload (val : Log) (rt : LogOutput) (x : String) (hx : x ≠ "payload") :
    (LogOutput.fromStep val rt x).payload = rt.payload := by
  unfold LogOutput.fromStep
  split <;> simp_all

theorem fromStep_tokens (val : Log) (rt : LogOutput) (x : String) (hx : x ≠ "tokens") :
    (LogOutput.fromStep val rt x).tokens = rt.tokens := by
  unfold LogOutput.fromStep
  split <;> simp_all

theorem fromStep_error (val : Log) (rt : LogOutput) (x : String) (hx : x ≠ "error") :
    (LogOutput.fromStep val rt x).error = rt.error := by
  unfold LogOutput.fromStep
  split <;> simp_all

theorem foldl_fromStep_gid (val : Log) (l : List String) (rt : LogOutput)
    (hl : "gid" ∉ l) :
    (l.foldl (LogOutput.fromStep val) rt).gid = rt.gid := by
  induction l generalizing rt with
  | nil => rfl
  | cons x xs ih =>
    rw [List.foldl_cons, ih _ (fun h => hl (List.mem_cons_of_mem x h)),
      fromStep_gid val rt x (fun h => hl (h ▸ List.mem_cons_self x xs))]

theorem foldl_fromStep_ip (val : Log) (l : List String) (rt : LogOutput)
    (hl : "ip" ∉ l) :
    (l.foldl (LogOutput.fromStep val) rt).ip = rt.ip := by
  induction l generalizing rt with
  | nil => rfl
  | cons x xs ih =>
    rw [List.foldl_cons, ih _ (fun h => hl (List.mem_cons_of_mem x h)),
      fromStep_ip val rt x (fun h => hl (h ▸ List.mem_cons_self x xs))]

theorem foldl_fromStep_payload (val : Log) (l : List String) (rt : LogOutput)
    (hl : "payload" ∉ l) :
    (l.foldl (LogOutput.fromStep val) rt).payload = rt.payload := by
  induction l generalizing rt with
  | nil => rfl
  | cons x xs ih =>
    rw [List.foldl_cons, ih _ (fun h => hl (List.mem_cons_of_mem x h)),
      fromStep_payload val rt x (fun h => hl (h ▸ List.mem_cons_self x xs))]

theorem foldl_fromStep_tokens (val : Log) (l : List String) (rt : LogOutput)
    (hl : "tokens" ∉ l) :
    (l.foldl (LogOutput.fromStep val) rt).tokens = rt.tokens := by
  induction l generalizing rt with
  | nil => rfl
  | cons x xs ih =>
    rw [List.foldl_cons, ih _ (fun h => hl (List.mem_cons_of_mem x h)),
      fromStep_tokens val rt x (fun h => hl (h ▸ List.mem_cons_self x xs))]

theorem foldl_fromStep_error_notsel (val : Log) (l : List String) (rt : LogOutput)
    (hl : "error" ∉ l) :
    (l.foldl (LogOutput.fromStep val) rt).error = rt.error := by
  induction l generalizing rt with
  | nil => rfl
  | cons x xs ih =>
    rw [List.foldl_cons, ih _ (fun h => hl (List.mem_cons_of_mem x h)),
      fromStep_error val rt x (fun h => hl (h ▸ List.mem_cons_self x xs))]

theorem fromStep_error_none (val : Log) (rt : LogOutput) (x : String)
    (hval : val.error = "") (hrt : rt.error = none) :
    (LogOutput.fromStep val rt x).error = none := by
  unfold LogOutput.fromStep
  split <;> simp_all

theorem foldl_fromStep_error_empty (val : Log) (l : List String) (rt : LogOutput)
    (hval : val.error = "") (hrt : rt.error = none) :
    (l.foldl (LogOutput.fromStep val) rt).error = none := by
  induction l generalizing rt with
  | nil => exact hrt
  | cons x xs ih =>
    rw [List.foldl_cons]
    exact ih _ (fromStep_error_none val rt x hval hrt)

/-- C7: the output conversion always renders uid, id, the action name
and status; every optional field (gid, ip, payload, tokens, error) is
rendered absent whenever its name is missing from the entry's
selected-fields list; and error is additionally rendered absent whenever
the stored error string is empty, even when the field was selected. -/
theorem log_output_rendering (val : Log) :
    (LogOutput.fromLog val).uid = val.uid
    ∧ (LogOutput.fromLog val).id = val.id
    ∧ (LogOutput.fromLog val).action = from_action val.action
    ∧ (LogOutput.fromLog val).status = val.status
    ∧ ("gid" ∉ val.selectedFields → (LogOutput.fromLog val).gid = none)
    ∧ ("ip" ∉ val.selectedFields → (LogOutput.fromLog val).ip = none)
    ∧ ("payload" ∉ val.selectedFields → (LogOutput.fromLog val).payload = none)
    ∧ ("tokens" ∉ val.selectedFields → (LogOutput.fromLog val).tokens = none)
    ∧ ("error" ∉ val.selectedFields → (LogOutput.fromLog val).error = none)
    ∧ (val.error = "" → (LogOutput.fromLog val).error = none) := by
  unfold LogOutput.fromLog
  refine ⟨(foldl_fromStep_mandatory val val.selectedFields _).1,
    (foldl_fromStep_mandatory val val.selectedFields _).2.1,
    (foldl_fromStep_mandatory val val.selectedFields _).2.2.1,
    (foldl_fromStep_mandatory val val.selectedFields _).2.2.2,
    fun h => foldl_fromStep_gid val val.selectedFields _ h,
    fun h => foldl_fromStep_ip val val.selectedFields _ h,
    fun h => foldl_fromStep_payload val val.selectedFields _ h,
    fun h => foldl_fromStep_tokens val val.selectedFields _ h,
    fun h => foldl_fromStep_error_notsel val val.selectedFields _ h,
    fun h => foldl_fromStep_error_empty val val.selectedFields _ h rfl⟩

/-- Concrete entry for the C7 witness: ip and error are the selected
fields and the stored error string is empty. -/
def c7val : Log :=
  { uid := 1, id := 2, action := 8, status := 1, ip := "1.2.3.4", error := "",
    selectedFields := ["ip", "error"] }

/-- Witness for C7 at a concrete entry whose selected fields are ip and
error with an empty stored error: gid, payload and tokens render absent
because unselected, and error renders absent despite being selected. -/
theorem log_output_rendering_witness :
    (LogOutput.fromLog c7val).uid = 1
    ∧ (LogOutput.fromLog c7val).gid = none
    ∧ (LogOutput.fromLog c7val).tokens = none
    ∧ (LogOutput.fromLog c7val).error = none := by
  have h := log_output_rendering c7val
  exact ⟨h.1, h.2.2.2.2.1 (by decide), h.2.2.2.2.2.2.2.1 (by decide),
    h.2.2.2.2.2.2.2.2.2 rfl⟩

/-- Concrete row for the C1 failing input: owner 1, entry id 5, action
code 1, pending. -/
def c1row : Log := { uid := 1, id := 5, action := 1, status := 0 }

/-- C1 (evaluating the code at the failing input): for the list call
with owner 1, action filter 1 and no cursor, the bound query carries the
cursor value (an id, here MAX_ID) at the action-equality position and
the action code at the identifier upper-bound position — the reverse of
what the placeholders (uid=?, action=?, id<?) require — so the action
equality (which claim and spec say binds the action code) never compares
against the action code, and the call returns no rows even though the
table holds a row of that owner with exactly that action code and an id
strictly below the cursor. -/
theorem list_action_binding_swapped :
    (listActionBound 1 MAX_ID 1 10).actionEq = CqlValue.xid MAX_ID
    ∧ (listActionBound 1 MAX_ID 1 10).idLt = CqlValue.tinyint 1
    ∧ (listActionBound 1 MAX_ID 1 10).actionEq ≠ CqlValue.tinyint 1
    ∧ c1row.uid = 1 ∧ c1row.action = 1 ∧ c1row.id < MAX_ID
    ∧ Log.list [c1row] 1 [] 10 none (some 1) = .ok [] := by
  refine ⟨rfl, rfl, by decide, rfl, rfl, by decide, rfl⟩

/-- Rows of one owner, in table order. -/
def ownerRows (st : Store) (uid : Xid) : List Log :=
  st.filter (fun r => r.uid == uid)

/-- Strictly descending entry-id order. -/
abbrev descById (l : List Log) : Prop :=
  l.Pairwise (fun a b => b.id < a.id)

theorem filter_owner_and (st : Store) (uid : Xid) (p : Log → Bool) :
    st.filter (fun r => r.uid == uid && p r) = (ownerRows st uid).filter p := by
  unfold ownerRows
  rw [List.filter_filter]
  apply List.filter_congr
  intro r _
  exact Bool.and_comm _ _

theorem select_fields_true_forced (sf fields : List String)
    (hsf : Log.select_fields sf true = .ok fields) :
    "uid" ∈ fields ∧ "id" ∈ fields := by
  by_cases hne : sf = []
  · subst hne
    cases hsf
    decide
  · by_cases hval : ∀ f ∈ sf, f ∈ Log.fields
    · rw [select_fields_ok_of_valid sf true hne hval] at hsf
      cases hsf
      exact ⟨(mem_appendMissing_true sf).2.2.1, (mem_appendMissing_true sf).2.2.2⟩
    · push_neg at hval
      rcases hval with ⟨f, hf, hnf⟩
      have hne' : sf.isEmpty = false := by simpa using hne
      have hsome : (sf.find? (fun f => ¬ Log.fields.contains f)).isSome := by
        rw [List.find?_isSome]
        exact ⟨f, hf, by simp [List.contains, List.elem_eq_mem, hnf]⟩
      rcases hx : sf.find? (fun f => ¬ Log.fields.contains f) with _ | g
      · rw [hx] at hsome
        simp at hsome
      · simp only [Log.select_fields, hne', Bool.false_eq_true, if_false, hx] at hsf
        cases hsf

theorem listRowFill_id (fields : List String) (hid : "id" ∈ fields) (r : Log) :
    (listRowFill fields r).id = r.id := by
  unfold listRowFill Log.fillFrom
  simp [List.contains, List.elem_eq_mem, hid]

/-- On a strictly descending list, the elements strictly below the last
element of the first `n` are exactly the elements after the first `n`. -/
theorem filter_lt_getLast_take_eq_drop (l : List Log) (n : Nat) (x : Log)
    (hs : l.Pairwise (fun a b => b.id < a.id))
    (hx : (l.take n).getLast? = some x) :
    l.filter (fun r => decide (r.id < x.id)) = l.drop n := by
  induction l generalizing n with
  | nil => simp at hx
  | cons a t ih =>
    cases n with
    | zero => simp at hx
    | succ m =>
      rw [List.take_succ_cons] at hx
      rcases List.pairwise_cons.mp hs with ⟨ha, ht⟩
      rcases hmt : t.take m with _ | ⟨y, ys⟩
      · rw [hmt] at hx
        simp only [List.getLast?_singleton, Option.some.injEq] at hx
        subst hx
        rw [List.drop_succ_cons, List.filter_cons,
          if_neg (by simp : ¬ (decide (a.id < a.id) = true))]
        rcases List.take_eq_nil_iff.mp hmt with rfl | rfl
        · rw [List.drop_zero, List.filter_eq_self]
          intro b hb
          simpa using ha b hb
        · simp
      · rw [hmt, List.getLast?_cons_cons, ← hmt] at hx
        have hxmem : x ∈ t := by
          rcases List.getLast?_eq_some_iff.mp hx with ⟨zs, hzs⟩
          exact List.mem_of_mem_take (by rw [hzs]; simp)
        have hxa : x.id < a.id := ha x hxmem
        have hcond : ¬ (decide (a.id < x.id) = true) := by
          simp only [decide_eq_true_eq]
          exact Nat.lt_asymm hxa
        rw [List.drop_succ_cons, List.filter_cons, if_neg hcond]
        exact ih m ht hx

theorem list_none_eval (st : Store) (uid : Xid) (sf fields : List String) (n : Nat)
    (cursor : Option Xid) (hsf : Log.select_fields sf true = .ok fields) :
    Log.list st uid sf n cursor none
      = .ok ((((ownerRows st uid).filter
          (fun r => decide (r.id < cursor.getD MAX_ID))).take n).map (listRowFill fields)) := by
  unfold Log.list
  rw [hsf]
  show Except.ok (((st.filter (fun r => r.uid == uid
      && decide (r.id < cursor.getD MAX_ID))).take n).map (listRowFill fields)) = _
  rw [filter_owner_and st uid (fun r => decide (r.id < cursor.getD MAX_ID))]

/-- C5: backward listing without an action filter — with the cursor
absent the scan bound is the maximum identifier value; otherwise every
returned row's id is strictly below the cursor; at most page_size rows
come back, in strictly descending id order, and re-listing with the last
returned id as cursor continues exactly at the next page (no overlap, no
gap). -/
theorem list_backward_pagination (st : Store) (uid : Xid) (sf fields : List String)
    (n : Nat) (cursor : Option Xid)
    (hsf : Log.select_fields sf true = .ok fields)
    (hsorted : descById (ownerRows st uid)) :
    ∃ page, Log.list st uid sf n cursor none = .ok page
      ∧ page.length ≤ n
      ∧ descById page
      ∧ (∀ c, cursor = some c → ∀ r ∈ page, r.id < c)
      ∧ (cursor = none → ∀ r ∈ page, r.id < MAX_ID)
      ∧ (∀ x, page.getLast? = some x →
          Log.list st uid sf n (some x.id) none
            = .ok ((((ownerRows st uid).filter
                (fun r => decide (r.id < cursor.getD MAX_ID))).drop n).take n |>.map
                  (listRowFill fields))) := by
  have hid := (select_fields_true_forced sf fields hsf).2
  have hfe : ∀ r, (listRowFill fields r).id = r.id := listRowFill_id fields hid
  set M : List Log :=
    (ownerRows st uid).filter (fun r => decide (r.id < cursor.getD MAX_ID)) with hM
  have hMsorted : M.Pairwise (fun a b => b.id < a.id) := hsorted.filter _
  have heval := list_none_eval st uid sf fields n cursor hsf
  refine ⟨(M.take n).map (listRowFill fields), heval, ?_, ?_, ?_, ?_, ?_⟩
  · rw [List.length_map]
    exact List.length_take_le n M
  · unfold descById
    rw [List.pairwise_map]
    exact List.Pairwise.imp (fun h => by rw [hfe, hfe]; exact h)
      (List.Pairwise.sublist (List.take_sublist n M) hMsorted)
  · rintro c rfl r hr
    rcases List.mem_map.mp hr with ⟨s, hsM, rfl⟩
    have hsM2 := List.mem_of_mem_take hsM
    have hlt := (List.mem_filter.mp hsM2).2
    rw [hfe]
    simpa using hlt
  · rintro rfl r hr
    rcases List.mem_map.mp hr with ⟨s, hsM, rfl⟩
    have hsM2 := List.mem_of_mem_take hsM
    have hlt := (List.mem_filter.mp hsM2).2
    rw [hfe]
    simpa using hlt
  · intro x hxlast
    rw [List.getLast?_map] at hxlast
    rcases Option.map_eq_some'.mp hxlast with ⟨y, hy, hxy⟩
    subst hxy
    have hyM : y ∈ M := by
      rcases List.getLast?_eq_some_iff.mp hy with ⟨zs, hzs⟩
      exact List.mem_of_mem_take (by rw [hzs]; simp)
    have hytok : y.id < cursor.getD MAX_ID := by
      have := (List.mem_filter.mp hyM).2
      simpa using this
    rw [list_none_eval st uid sf fields n (some ((listRowFill fields y).id)) hsf]
    have hnarrow : (ownerRows st uid).filter (fun r => decide (r.id < y.id))
        = M.filter (fun r => decide (r.id < y.id)) := by
      rw [hM, List.filter_filter]
      apply List.filter_congr
      intro r _
      by_cases h1 : r.id < y.id
      · have h2 : r.id < cursor.getD MAX_ID := Nat.lt_trans h1 hytok
        simp [h1, h2]
      · simp [h1]
    simp only [Option.getD_some, hfe]
    rw [hnarrow, filter_lt_getLast_take_eq_drop M n y hMsorted hy]

/-- Concrete four-row table for the C5 witness: three rows of owner 1
with descending ids 30, 20, 10 and one row of another owner. -/
def c5store : Store :=
  [ { uid := 1, id := 30, action := 8 }, { uid := 2, id := 25, action := 9 },
    { uid := 1, id := 20, action := 8 }, { uid := 1, id := 10, action := 9 } ]

/-- Witness for C5 over the concrete table, full field set, page size 2,
cursor absent. -/
theorem list_backward_pagination_witness :
    (Log.select_fields [] true = .ok Log.fields)
    ∧ descById (ownerRows c5store 1)
    ∧ ∃ page, Log.list c5store 1 [] 2 none none = .ok page
      ∧ page.length ≤ 2
      ∧ descById page
      ∧ (∀ c, (none : Option Xid) = some c → ∀ r ∈ page, r.id < c)
      ∧ ((none : Option Xid) = none → ∀ r ∈ page, r.id < MAX_ID)
      ∧ (∀ x, page.getLast? = some x →
          Log.list c5store 1 [] 2 (some x.id) none
            = .ok ((((ownerRows c5store 1).filter
                (fun r => decide (r.id < (none : Option Xid).getD MAX_ID))).drop 2).take 2
                  |>.map (listRowFill Log.fields))) := by
  exact ⟨rfl, by decide,
    list_backward_pagination c5store 1 [] Log.fields 2 none rfl (by decide)⟩

theorem foldl_byte_zeros (k : Nat) (acc : Nat) :
    List.foldl (fun acc b => acc * 256 + b) acc (List.replicate k 0) = acc * 256 ^ k := by
  induction k generalizing acc with
  | zero => simp
  | succ m ih =>
    rw [List.replicate_succ, List.foldl_cons, ih]
    ring

theorem xidOfBytes_append_zeros (bs : List Nat) (k : Nat) :
    xidOfBytes (bs ++ List.replicate k 0) = xidOfBytes bs * 256 ^ k := by
  unfold xidOfBytes
  rw [List.foldl_append]
  exact foldl_byte_zeros k _

theorem xidOfBytes_u32 (v : Nat) (hv : v < 2 ^ 32) :
    xidOfBytes (u32_be_bytes v) = v := by
  unfold xidOfBytes u32_be_bytes
  simp only [List.foldl_cons, List.foldl_nil]
  omega

theorem retentionBoundId_eq (now_ms : Nat) :
    retentionBoundId now_ms = ((now_ms / 1000 - 3600 * 24 * 3) % 2 ^ 32) * 2 ^ 64 := by
  unfold retentionBoundId
  rw [xidOfBytes_append_zeros, xidOfBytes_u32 _ (Nat.mod_lt _ (by norm_num))]
  norm_num

theorem list_recently_eval (st : Store) (uid : Xid) (sf fields : List String)
    (now_ms : Nat) (hsf : Log.select_fields sf true = .ok fields) :
    Log.list_recently st uid sf [] now_ms
      = .ok ((((ownerRows st uid).filter
          (fun r => decide (retentionBoundId now_ms < r.id))).take 1000).map
            (listRowFill fields)) := by
  unfold Log.list_recently
  rw [hsf]
  show Except.ok (((st.filter (fun r => r.uid == uid
      && decide (retentionBoundId now_ms < r.id))).take 1000).map (listRowFill fields)) = _
  rw [filter_owner_and st uid (fun r => decide (retentionBoundId now_ms < r.id))]

/-- C4: recent-window listing with an empty action filter set applies no
action filtering: it returns exactly the owner's rows whose id is
strictly greater than the synthetic lower bound — an id whose first four
bytes are the big-endian unix-seconds timestamp of now minus 3 days and
whose remaining eight bytes are zero, i.e. the value timestamp·2^64 — in
strictly descending id order, capped at 1000 rows. -/
theorem list_recently_empty_filter (st : Store) (uid : Xid) (sf fields : List String)
    (now_ms : Nat)
    (hsf : Log.select_fields sf true = .ok fields)
    (hsorted : descById (ownerRows st uid)) :
    retentionBoundId now_ms = ((now_ms / 1000 - 3600 * 24 * 3) % 2 ^ 32) * 2 ^ 64
    ∧ ∃ page, Log.list_recently st uid sf [] now_ms = .ok page
      ∧ page.length ≤ 1000
      ∧ descById page
      ∧ (∀ r ∈ page, retentionBoundId now_ms < r.id)
      ∧ page = (((ownerRows st uid).filter
          (fun r => decide (retentionBoundId now_ms < r.id))).take 1000).map
            (listRowFill fields) := by
  have hid := (select_fields_true_forced sf fields hsf).2
  have hfe : ∀ r, (listRowFill fields r).id = r.id := listRowFill_id fields hid
  refine ⟨retentionBoundId_eq now_ms, _,
    list_recently_eval st uid sf fields now_ms hsf, ?_, ?_, ?_, rfl⟩
  · rw [List.length_map]
    exact List.length_take_le _ _
  · unfold descById
    rw [List.pairwise_map]
    exact List.Pairwise.imp (fun h => by rw [hfe, hfe]; exact h)
      (List.Pairwise.sublist (List.take_sublist _ _) (hsorted.filter _))
  · intro r hr
    rcases List.mem_map.mp hr with ⟨s, hsM, rfl⟩
    have hsM2 := List.mem_of_mem_take hsM
    have hlt := (List.mem_filter.mp hsM2).2
    rw [hfe]
    simpa using hlt

/-- Concrete table for the C4 witness: owner 1 has one row created
inside the 3-day window relative to the witness clock and one old row
outside it. -/
def c4store : Store :=
  [ { uid := 1, id := 1699740900 * 2 ^ 64 + 5, action := 8 },
    { uid := 1, id := 3, action := 9 } ]

set_option maxRecDepth 10000 in
/-- Witness for C4 over the concrete table at clock 1700000000000 ms. -/
theorem list_recently_empty_filter_witness :
    (Log.select_fields [] true = .ok Log.fields)
    ∧ descById (ownerRows c4store 1)
    ∧ (retentionBoundId 1700000000000
        = ((1700000000000 / 1000 - 3600 * 24 * 3) % 2 ^ 32) * 2 ^ 64
      ∧ ∃ page, Log.list_recently c4store 1 [] [] 1700000000000 = .ok page
        ∧ page.length ≤ 1000
        ∧ descById page
        ∧ (∀ r ∈ page, retentionBoundId 1700000000000 < r.id)
        ∧ page = (((ownerRows c4store 1).filter
            (fun r => decide (retentionBoundId 1700000000000 < r.id))).take 1000).map
              (listRowFill Log.fields)) := by
  exact ⟨rfl, by decide,
    list_recently_empty_filter c4store 1 [] Log.fields 1700000000000 rfl (by decide)⟩

end Logbase
